import Mathlib

/-!
Verification of the Delhi-NCR AQI assessment pipeline.

This file shallowly embeds the procedural core of the repository:

* `get_aqi_data.py` — the resumable satellite time-series extraction:
  the fetch-with-one-retry (`get_s5p_time_series`), the per-unit outer
  merge and row shaping, the checkpoint/resume setup, and the main
  orchestration loop;
* `scripts/load_and_predict.py` — the prediction helpers
  (`predict_discrepancy`, `predict_corrected_pm25`, `prepare_features`);
* `scripts/merge_datasets.py` — the location-name harmonization step.

Python floats are modelled as rationals (no float arithmetic is relied
upon by any property proved here), `YYYY-MM-DD` date strings as a
structural `Date` (the formatting is injective for the years in play),
and the remote geospatial service as an explicit collaborator value.
-/

/-- Calendar date (year, month, day) at day granularity, as produced by
converting a millisecond epoch timestamp; stands for the script's
`YYYY-MM-DD` strings. -/
structure Date where
  year : Nat
  month : Nat
  day : Nat
deriving DecidableEq

/-- A cell of the tabular response of the remote `getRegion` query: null
(masked pixel or absent timestamp), a number (timestamps in milliseconds,
band values), or a string (ids, header names). -/
inductive Cell where
  | null
  | num (n : Int)
  | str (s : String)
deriving DecidableEq

/-- An observation parsed from the remote response: a calendar day plus
the band value kept verbatim (possibly null). -/
structure Obs where
  date : Date
  value : Cell
deriving DecidableEq

/-- One row of the in-progress merged table of a (location, month) unit:
a date plus an association list from product name to value. -/
structure URow where
  date : Date
  vals : List (String × Cell)
deriving DecidableEq

/-- One persisted output row, in the fixed header order
`[date, product1..productN, location]`: the date, the product value cells
in catalog order, and the location name. -/
structure Row where
  date : Date
  vals : List Cell
  location : String
deriving DecidableEq

/-- The eight monitoring locations, in the dict-insertion order of
`locations` in `get_aqi_data.py`. -/
def locationNames : List String :=
  ["Anand Vihar, Delhi", "RK Puram, Delhi", "Punjabi Bagh, Delhi",
   "Mandir Marg, Delhi", "Vikas Sadan, Gurugram", "Sector 51, Gurugram",
   "Sector 62, Noida", "Sector 125, Noida"]

/-- The pollutant product names, in the dict-insertion order of
`s5p_products`; this order fixes the output column order. -/
def product_names : List String := ["NO2", "SO2", "CO", "O3", "Aerosol_Index"]

/-- First year of the extraction window. -/
def start_year : Nat := 2020

/-- Outcome of one remote `getRegion(...).getInfo()` call: a retryable
fault (`ee.EEException`) or a table of rows (header first). -/
inductive Resp where
  | fault
  | ok (table : List (List Cell))
deriving DecidableEq

/-- Result of `get_s5p_time_series`: a returned observation list, or an
uncaught exception propagating out of the function. -/
inductive FetchResult where
  | ok (obs : List Obs)
  | raised
deriving DecidableEq

/-- Observable outcome of one fetch call: its result, the number of
remote calls issued, and the total back-off slept (units of
`time.sleep`). -/
structure FetchOut where
  result : FetchResult
  calls : Nat
  sleepTime : Nat
deriving DecidableEq

/-- Python's `list.index(c)`: index of the first equal element, `none`
standing for the raised `ValueError`. -/
def cellIndex (l : List Cell) (c : Cell) : Option Nat :=
  l.findIdx? (· == c)

/-- Parse of a single data row (`get_aqi_data.py` lines 72-83 resp.
104-113): skip the row when the timestamp is absent or unusable (the
inner `except Exception` swallows index and type errors), otherwise
convert the millisecond timestamp with `dateConv` (modelling the
local-time `datetime.fromtimestamp` day conversion) and keep the value
cell verbatim. -/
def parseRow (dateConv : Int → Date) (dateIdx valIdx : Nat) (row : List Cell) : Option Obs :=
  match row[dateIdx]? with
  | none => none
  | some Cell.null => none
  | some (Cell.str _) => none
  | some (Cell.num ts) =>
    match row[valIdx]? with
    | none => none
    | some v => some ⟨dateConv ts, v⟩

/-- Parse of all data rows of a response. -/
def parseRows (dateConv : Int → Date) (dateIdx valIdx : Nat)
    (rows : List (List Cell)) : List Obs :=
  rows.filterMap (parseRow dateConv dateIdx valIdx)

/-- Parse of a whole response table: locate the `time` column and the
band column by name in the header, then parse the data rows; `none`
models the `ValueError` raised by `header.index` when a column is
missing. -/
def parseTable (dateConv : Int → Date) (band : String)
    (table : List (List Cell)) : Option (List Obs) :=
  match table with
  | [] => none
  | header :: rows =>
    match cellIndex header (Cell.str "time"), cellIndex header (Cell.str band) with
    | some di, some vi => some (parseRows dateConv di vi rows)
    | _, _ => none

/-- `get_s5p_time_series` (lines 45-118): one attempt, and on an
`ee.EEException` a 5-unit sleep followed by exactly one identical retry.
A short response (fewer than 2 rows) yields `[]`.  On the first attempt a
header-parse `ValueError` is caught (lines 64-69) and yields `[]`; on the
retry attempt (lines 100-101) it is not caught — the surrounding `except`
only catches `ee.EEException` — so it propagates. -/
def get_s5p_time_series (dateConv : Int → Date) (band : String)
    (attempts : Resp × Resp) : FetchOut :=
  match attempts.1 with
  | Resp.ok t =>
    if t.length < 2 then ⟨FetchResult.ok [], 1, 0⟩
    else
      match parseTable dateConv band t with
      | none => ⟨FetchResult.ok [], 1, 0⟩
      | some obs => ⟨FetchResult.ok obs, 1, 0⟩
  | Resp.fault =>
    match attempts.2 with
    | Resp.fault => ⟨FetchResult.ok [], 2, 5⟩
    | Resp.ok t =>
      if t.length < 2 then ⟨FetchResult.ok [], 2, 5⟩
      else
        match parseTable dateConv band t with
        | none => ⟨FetchResult.raised, 2, 5⟩
        | some obs => ⟨FetchResult.ok obs, 2, 5⟩

/-- Reading a cell of a merged row for column `p`: the stored value when
the column joined the row, `null` (NaN) otherwise. -/
def lookupCell (vals : List (String × Cell)) (p : String) : Cell :=
  (vals.lookup p).getD Cell.null

/-- Date column of a partial merged table. -/
def datesOf (df : List URow) : List Date := df.map URow.date

/-- Dates of a fetch result. -/
def obsDates (ts : List Obs) : List Date := ts.map Obs.date

/-- `pd.merge(left, temp, on='date', how='outer')` where `temp` has the
columns `[date, g]` (line 193): every left row paired with each matching
observation (null-padded when none matches), followed by the observations
at new dates, their earlier value columns (`cols`) padded with nulls. -/
def mergeOuter (cols : List String) (left : List URow) (g : String)
    (ts : List Obs) : List URow :=
  left.flatMap (fun lr =>
    if (ts.filter (fun o => o.date == lr.date)).isEmpty then
      [⟨lr.date, lr.vals ++ [(g, Cell.null)]⟩]
    else (ts.filter (fun o => o.date == lr.date)).map
      (fun o => ⟨lr.date, lr.vals ++ [(g, o.value)]⟩))
  ++ (ts.filter (fun o => !(datesOf left).contains o.date)).map
      (fun o => ⟨o.date, cols.map (fun c => (c, Cell.null)) ++ [(g, o.value)]⟩)

/-- The per-product merge loop (lines 183-193): fold over the products in
catalog order, skipping empty fetch results, seeding the table with the
first non-empty result and outer-merging each further one; `cols` tracks
the value columns accumulated so far. -/
def unitMergeAux (cols : List String) (df : List URow) :
    List (String × List Obs) → List String × List URow
  | [] => (cols, df)
  | (g, ts) :: rest =>
    if ts.isEmpty then unitMergeAux cols df rest
    else if df.isEmpty then
      unitMergeAux [g] (ts.map (fun o => ⟨o.date, [(g, o.value)]⟩)) rest
    else
      unitMergeAux (cols ++ [g]) (mergeOuter cols df g ts) rest

/-- The merged table of one (location, month) unit. -/
def unitMerge (results : List (String × List Obs)) : List URow :=
  (unitMergeAux [] [] results).2

/-- Worker for keyed deduplication: drop every element whose key was
already seen, keeping first occurrences. -/
def dedupKeyedAux {α β : Type} [DecidableEq β] (key : α → β) (seen : List β) :
    List α → List α
  | [] => []
  | x :: xs =>
    if key x ∈ seen then dedupKeyedAux key seen xs
    else x :: dedupKeyedAux key (key x :: seen) xs

/-- `drop_duplicates`-style keyed deduplication keeping the first
occurrence of each key (also `unique()` when the key is the identity). -/
def dedupKeyed {α β : Type} [DecidableEq β] (key : α → β) (l : List α) : List α :=
  dedupKeyedAux key [] l

/-- Unit finalization (lines 195-200): an empty merge appends nothing;
otherwise deduplicate by date keeping the first occurrence, attach the
constant location, and reindex to the fixed header order
`[date, product1..productN, location]` — a product that never joined
becomes an all-null column. -/
def finalizeUnit (df : List URow) (loc : String) : List Row :=
  if df.isEmpty then []
  else (dedupKeyed URow.date df).map
    (fun u => ⟨u.date, product_names.map (fun p => lookupCell u.vals p), loc⟩)

/-- The run environment: the current clock (`datetime.now()`) and the
remote fetch collaborator already specialised to a unit — the point
geometry is a function of the location, and the month-bounded date range
(clamped to today in the current month) a function of (year, month). -/
structure Env where
  nowYear : Nat
  nowMonth : Nat
  fetch : String → Nat → Nat → String → List Obs

/-- `range(start_year, end_year + 1)` with `end_year = now.year`
(lines 29-32). -/
def yearsList (env : Env) : List Nat :=
  List.range' start_year (env.nowYear + 1 - start_year)

/-- `range(1, last_month + 1)` with the current year capped at the
current month (lines 166-168). -/
def monthsList (env : Env) (y : Nat) : List Nat :=
  List.range' 1 (if y < env.nowYear then 12 else env.nowMonth)

/-- Checkpoint inferred from the last persisted row. -/
structure Checkpoint where
  location : String
  year : Nat
  month : Nat
deriving DecidableEq

/-- The month-skip test of lines 170-172. -/
def shouldSkipMonth (rp : Option Checkpoint) (loc : String) (y m : Nat) : Bool :=
  match rp with
  | none => false
  | some cp =>
    loc == cp.location &&
      (decide (y < cp.year) || (y == cp.year && decide (m ≤ cp.month)))

/-- Resume setup (lines 127-140) over a parsed, non-empty output file:
the checkpoint is the last row's (location, year, month), and every other
distinct location present is marked fully processed (filter the rows,
then first-occurrence `unique()`). -/
def startup (rows : List Row) : Option Checkpoint × List String :=
  match rows.getLast? with
  | none => (none, [])
  | some last =>
    (some ⟨last.location, last.date.year, last.date.month⟩,
     dedupKeyed id ((rows.filter (fun r => r.location ≠ last.location)).map Row.location))

/-- Fetch results of one unit for all products, in catalog order
(line 184). -/
def unitResults (env : Env) (loc : String) (y m : Nat) : List (String × List Obs) :=
  product_names.map (fun g => (g, env.fetch loc y m g))

/-- The rows appended for one (location, month) unit. -/
def processUnit (env : Env) (loc : String) (y m : Nat) : List Row :=
  finalizeUnit (unitMerge (unitResults env loc y m)) loc

/-- The main processing loop (lines 154-201) given a resume state:
locations marked processed are skipped entirely, and within the
checkpoint's location every month at or before the checkpoint is
skipped. -/
def runLoop (env : Env) (rp : Option Checkpoint) (processed : List String) : List Row :=
  locationNames.flatMap (fun loc =>
    if loc ∈ processed then []
    else
      (yearsList env).flatMap (fun y =>
        (monthsList env y).flatMap (fun m =>
          if shouldSkipMonth rp loc y m then [] else processUnit env loc y m)))

/-- One complete program run over an existing parseable output file:
resume setup followed by the main loop, appending to the existing
rows. -/
def fullRun (env : Env) (existing : List Row) : List Row :=
  existing ++ runLoop env (startup existing).1 (startup existing).2

/-- The remote contract the checkpoint scheme relies on: observations
fetched for a (location, year, month) unit are dated within that month
(the spec's append-order invariant, section 3). -/
def wellDated (env : Env) : Prop :=
  ∀ loc ∈ locationNames, ∀ y ∈ yearsList env, ∀ m ∈ monthsList env y,
    ∀ g ∈ product_names, ∀ o ∈ env.fetch loc y m g,
      o.date.year = y ∧ o.date.month = m

/-- The (location, year, month) units of one location, in iteration
order. -/
def unitsOfLoc (env : Env) (loc : String) : List (String × Nat × Nat) :=
  (yearsList env).flatMap (fun y => (monthsList env y).map (fun m => (loc, y, m)))

/-- All units in global iteration order. -/
def allUnits (env : Env) : List (String × Nat × Nat) :=
  locationNames.flatMap (unitsOfLoc env)

/-- The rows of one unit, keyed form. -/
def procU (env : Env) (u : String × Nat × Nat) : List Row :=
  processUnit env u.1 u.2.1 u.2.2

/-- A Python scalar value in a feature dictionary: a number (floats
modelled as rationals) or a string.  The default fill for a missing
feature is the number 0. -/
inductive PVal where
  | num (q : ℚ)
  | str (s : String)
deriving DecidableEq

/-- One feature row: an association list from column name to value. -/
abbrev FeatureRow := List (String × PVal)

/-- The trained prediction pipeline, opaque except for its `predict`
method mapping a feature table to one discrepancy per row. -/
structure Pipeline where
  predict : List FeatureRow → List ℚ

/-- Model metadata saved next to the pipeline
(`load_and_predict.py` lines 46-52). -/
structure Metadata where
  model_name : String
  test_rmse : ℚ
  test_r2 : ℚ
  scaling_factor : ℚ
  feature_columns : List String

/-- `predict_discrepancy` (load_and_predict.py lines 57-68). -/
def predict_discrepancy (pipeline : Pipeline) (features_df : List FeatureRow) : List ℚ :=
  pipeline.predict features_df

/-- `predict_corrected_pm25` (lines 71-87): the satellite value times the
metadata's scaling factor plus the predicted discrepancy, the scalar
broadcast over the prediction array. -/
def predict_corrected_pm25 (pipeline : Pipeline) (metadata : Metadata)
    (features_df : List FeatureRow) (satellite_value : ℚ) : List ℚ :=
  (predict_discrepancy pipeline features_df).map
    (fun d => satellite_value * metadata.scaling_factor + d)

/-- The missing-column fill loop of `prepare_features` (lines 107-110):
append `(col, 0)` for each required column not yet present. -/
def addMissing (df : FeatureRow) (required : List String) : FeatureRow :=
  required.foldl
    (fun acc col => if (acc.lookup col).isSome then acc else acc ++ [(col, PVal.num 0)])
    df

/-- `prepare_features` (lines 90-115): build a single-row frame from the
dictionary, fill each missing required column with 0, then select exactly
the required columns in training order. -/
def prepare_features (data_dict : FeatureRow) (metadata : Metadata) : FeatureRow :=
  let df := addMissing data_dict metadata.feature_columns
  metadata.feature_columns.map (fun c => (c, (df.lookup c).getD (PVal.num 0)))

/-- The manual CPCB-to-S5P location-name harmonization map
(`merge_datasets.py` lines 41-57). -/
def location_map : List (String × String) :=
  [("Anand Vihar, Delhi - DPCC", "Anand Vihar, Delhi"),
   ("Punjabi Bagh  Delhi - DPCC", "Punjabi Bagh, Delhi"),
   ("Mandir Marg  Delhi - DPCC", "Mandir Marg, Delhi"),
   ("Vikas Sadan  Gurugram - HSPCB", "Vikas Sadan, Gurugram"),
   ("Sector-51  Gurugram - HSPCB", "Sector 51, Gurugram"),
   ("Sector - 125  Noida - UPPCB", "Sector 125, Noida"),
   ("R K Puram  Delhi - DPCC", "RK Puram, Delhi"),
   ("Sector - 62 Noida - IMD", "Sector 62, Noida")]

/-- A ground-station row: its location string plus the rest of the row,
kept abstract. -/
structure CRow (α : Type) where
  location : String
  payload : α
deriving DecidableEq

/-- Python's `str.strip()`: remove leading and trailing whitespace
characters. -/
def stripStr (s : String) : String :=
  String.mk (((s.data.dropWhile Char.isWhitespace).reverse.dropWhile
    Char.isWhitespace).reverse)

/-- Location harmonization (lines 59-68): stringify-and-strip every
location, drop rows whose location is the literal header word
`"Location"`, then map through `location_map`, keeping unmapped names
unchanged (`.map(...).fillna(original)`). -/
def harmonize {α : Type} (rows : List (CRow α)) : List (CRow α) :=
  ((rows.map (fun r => CRow.mk (stripStr r.location) r.payload)).filter
      (fun r => r.location ≠ "Location")).map
    (fun r => CRow.mk ((location_map.lookup r.location).getD r.location) r.payload)

/-- Fixed date conversion used by concrete witnesses. -/
def dcFix : Int → Date := fun _ => ⟨1970, 1, 1⟩

/-- A well-formed two-row response: header naming `time` and the band
`B`, then one data row with a null value. -/
def tGood : List (List Cell) := [[Cell.str "time", Cell.str "B"], [Cell.num 0, Cell.null]]

/-- A malformed two-row response whose header lacks the `time` column. -/
def tBadHeader : List (List Cell) := [[Cell.str "id"], [Cell.num 0]]

/-- Witness environment for the outer-join example: in January 2020,
product `NO2` observes days 1 and 3, `SO2` days 2 and 3, the other
products nothing. -/
def env6 : Env :=
  ⟨2020, 1, fun _ _ _ g =>
    if g = "NO2" then [⟨⟨2020, 1, 1⟩, Cell.num 1⟩, ⟨⟨2020, 1, 3⟩, Cell.num 3⟩]
    else if g = "SO2" then [⟨⟨2020, 1, 2⟩, Cell.num 2⟩, ⟨⟨2020, 1, 3⟩, Cell.num 4⟩]
    else []⟩

/-- Witness environment for resume runs: with the clock at January 2020,
only `Anand Vihar, Delhi` and product `NO2` yield data — two
observations on the 1st and the 2nd. -/
def envA : Env :=
  ⟨2020, 1, fun loc _ _ g =>
    if loc = "Anand Vihar, Delhi" ∧ g = "NO2" then
      [⟨⟨2020, 1, 1⟩, Cell.num 1⟩, ⟨⟨2020, 1, 2⟩, Cell.num 2⟩]
    else []⟩

/-- Witness output rows matching the spec's checkpoint-inference example:
a single row dated 2022-05-17 at location `RK Puram, Delhi`. -/
def rowsRK : List Row :=
  [⟨⟨2022, 5, 17⟩, [Cell.num 1, Cell.null, Cell.null, Cell.null, Cell.null],
    "RK Puram, Delhi"⟩]

/-- Witness merged table: two rows sharing day 1 (a duplicated remote
date) and one row for day 2, with only the `NO2` column present. -/
def df7 : List URow :=
  [⟨⟨2020, 1, 1⟩, [("NO2", Cell.num 1)]⟩,
   ⟨⟨2020, 1, 1⟩, [("NO2", Cell.num 9)]⟩,
   ⟨⟨2020, 1, 2⟩, [("NO2", Cell.null)]⟩]

/-- Constant witness pipeline predicting the discrepancy 3 for any input. -/
def pipelineW : Pipeline := ⟨fun _ => [3]⟩

/-- Witness metadata with scaling factor 2 and features `a`, `b`. -/
def metadataW : Metadata := ⟨"lin", 0, 0, 2, ["a", "b"]⟩

/-! ### Helper lemmas -/

/-- Looking a key up in a key-tagged map produces the tabulated value
exactly for the listed keys. -/
theorem lookup_map_pair {β : Type} (cols : List String) (f : String → β) (k : String) :
    (cols.map (fun c => (c, f c))).lookup k =
      if k ∈ cols then some (f k) else none := by
  induction cols with
  | nil => simp
  | cons c cols ih =>
    by_cases h : k = c
    · subst h
      simp [List.lookup_cons]
    · simp [List.lookup_cons, beq_false_of_ne h, h, ih]

/-- The missing-column fill loop leaves present keys alone and fills the
required missing ones with 0. -/
theorem addMissing_lookup (required : List String) (df : FeatureRow) (c : String) :
    (addMissing df required).lookup c =
      (df.lookup c).or (if c ∈ required then some (PVal.num 0) else none) := by
  induction required generalizing df with
  | nil => simp [addMissing]
  | cons r rest ih =>
    have hstep : addMissing df (r :: rest) =
        addMissing (if (df.lookup r).isSome then df else df ++ [(r, PVal.num 0)]) rest := by
      simp only [addMissing, List.foldl_cons]
    rw [hstep]
    by_cases hr : (df.lookup r).isSome
    · rw [if_pos hr, ih]
      by_cases hc : c = r
      · subst hc
        obtain ⟨v, hv⟩ := Option.isSome_iff_exists.mp hr
        simp [hv]
      · simp [hc, List.mem_cons]
    · rw [if_neg hr, ih, List.lookup_append]
      by_cases hc : c = r
      · subst hc
        rw [Option.not_isSome_iff_eq_none] at hr
        simp [hr, List.lookup_cons]
      · simp [List.lookup_cons, beq_false_of_ne hc, hc, List.mem_cons]

/-! ### C3 -/

/-- C3: retry-then-degrade.  A retryable fault on the first attempt
causes a fixed 5-unit back-off and exactly one reissued (second) call; a
double fault, or a response with fewer than 2 rows on either attempt,
yields the empty sequence without raising; and a fault followed by a
successfully parsed response yields the parse of that response. -/
theorem C3_retry_then_degrade (dateConv : Int → Date) (band : String) :
    (∀ r2 : Resp, (get_s5p_time_series dateConv band (Resp.fault, r2)).sleepTime = 5 ∧
      (get_s5p_time_series dateConv band (Resp.fault, r2)).calls = 2) ∧
    ((get_s5p_time_series dateConv band (Resp.fault, Resp.fault)).result = FetchResult.ok []) ∧
    (∀ (t : List (List Cell)) (r2 : Resp), t.length < 2 →
      get_s5p_time_series dateConv band (Resp.ok t, r2) = ⟨FetchResult.ok [], 1, 0⟩) ∧
    (∀ t : List (List Cell), t.length < 2 →
      (get_s5p_time_series dateConv band (Resp.fault, Resp.ok t)).result = FetchResult.ok []) ∧
    (∀ (t : List (List Cell)) (obs : List Obs), 2 ≤ t.length →
      parseTable dateConv band t = some obs →
      (get_s5p_time_series dateConv band (Resp.fault, Resp.ok t)).result = FetchResult.ok obs) := by
  refine ⟨fun r2 => ?_, rfl, fun t r2 ht => ?_, fun t ht => ?_, fun t obs ht hp => ?_⟩
  · cases r2 with
    | fault => exact ⟨rfl, rfl⟩
    | ok t =>
      rcases hp : parseTable dateConv band t with _ | obs <;>
        by_cases h : t.length < 2 <;>
          simp [get_s5p_time_series, h, hp]
  · simp [get_s5p_time_series, ht]
  · simp [get_s5p_time_series, ht]
  · have h2 : ¬ t.length < 2 := Nat.not_lt.mpr ht
    simp [get_s5p_time_series, h2, hp]

/-- Witness for C3 at concrete inputs: a double fault sleeps 5 units,
issues 2 calls and returns `[]`; a short first response returns `[]`
without a retry; a fault followed by a good response returns its
parse. -/
theorem C3_retry_then_degrade_witness :
    ((get_s5p_time_series dcFix "B" (Resp.fault, Resp.fault)).sleepTime = 5 ∧
      (get_s5p_time_series dcFix "B" (Resp.fault, Resp.fault)).calls = 2) ∧
    ((get_s5p_time_series dcFix "B" (Resp.fault, Resp.fault)).result = FetchResult.ok []) ∧
    (get_s5p_time_series dcFix "B" (Resp.ok [[Cell.str "time"]], Resp.fault) =
      ⟨FetchResult.ok [], 1, 0⟩) ∧
    ((get_s5p_time_series dcFix "B" (Resp.fault, Resp.ok tGood)).result =
      FetchResult.ok [⟨⟨1970, 1, 1⟩, Cell.null⟩]) := by
  obtain ⟨h1, h2, h3, _h4, h5⟩ := C3_retry_then_degrade dcFix "B"
  exact ⟨h1 Resp.fault, h2, h3 [[Cell.str "time"]] Resp.fault (by decide),
    h5 tGood [⟨⟨1970, 1, 1⟩, Cell.null⟩] (by decide) (by decide)⟩

/-! ### C4 -/

/-- C4 counterexample: with a first-attempt fault and a retry response
whose header lacks the `time` column, the fetch raises an uncaught error
instead of returning an empty sequence — refuting the claim that a
malformed header is non-fatal on the retry attempt as well. -/
theorem C4_malformed_header_counterexample :
    (get_s5p_time_series dcFix "B" (Resp.fault, Resp.ok tBadHeader)).result =
      FetchResult.raised ∧
    (get_s5p_time_series dcFix "B" (Resp.fault, Resp.ok tBadHeader)).result ≠
      FetchResult.ok [] := by
  decide

/-- C4 (amended): a response header lacking the expected timestamp or
band column is a non-fatal, empty-result parse failure on the FIRST
attempt; but when such a response arrives on the retry attempt (after a
first-attempt fault), the parse failure propagates as an uncaught
error. -/
theorem C4_malformed_header_amended (dateConv : Int → Date) (band : String)
    (header : List Cell) (rows : List (List Cell)) (r2 : Resp)
    (hlen : 2 ≤ (header :: rows).length)
    (hmiss : cellIndex header (Cell.str "time") = none ∨
      cellIndex header (Cell.str band) = none) :
    (get_s5p_time_series dateConv band (Resp.ok (header :: rows), r2)).result =
      FetchResult.ok [] ∧
    (get_s5p_time_series dateConv band (Resp.fault, Resp.ok (header :: rows))).result =
      FetchResult.raised := by
  have hparse : parseTable dateConv band (header :: rows) = none := by
    rcases hmiss with h | h
    · simp [parseTable, h]
    · cases hdi : cellIndex header (Cell.str "time") <;> simp [parseTable, h, hdi]
  have h2 : ¬ rows.length + 1 < 2 := by
    simpa using Nat.not_lt.mpr hlen
  constructor
  · simp [get_s5p_time_series, h2, hparse]
  · simp [get_s5p_time_series, h2, hparse]

/-- Witness for the amended C4 at the concrete malformed response. -/
theorem C4_malformed_header_amended_witness :
    (get_s5p_time_series dcFix "B" (Resp.ok tBadHeader, Resp.fault)).result =
      FetchResult.ok [] ∧
    (get_s5p_time_series dcFix "B" (Resp.fault, Resp.ok tBadHeader)).result =
      FetchResult.raised :=
  C4_malformed_header_amended dcFix "B" [Cell.str "id"] [[Cell.num 0]] Resp.fault
    (by decide) (Or.inl (by decide))

/-! ### C5 -/

/-- C5: null preservation in row parsing.  A data row with a null
timestamp is skipped outright; a row with a numeric timestamp and a null
value yields an observation whose value is exactly null (never dropped,
never coerced) and whose date is the conversion of the millisecond
timestamp to a (local-time) calendar day; such observations appear in the
parsed output. -/
theorem C5_null_preservation (dateConv : Int → Date) (dateIdx valIdx : Nat)
    (rows : List (List Cell)) :
    (∀ row : List Cell, row[dateIdx]? = some Cell.null →
      parseRow dateConv dateIdx valIdx row = none) ∧
    (∀ (row : List Cell) (ts : Int), row[dateIdx]? = some (Cell.num ts) →
      row[valIdx]? = some Cell.null →
      parseRow dateConv dateIdx valIdx row = some ⟨dateConv ts, Cell.null⟩) ∧
    (∀ (row : List Cell) (ts : Int), row ∈ rows →
      row[dateIdx]? = some (Cell.num ts) → row[valIdx]? = some Cell.null →
      (⟨dateConv ts, Cell.null⟩ : Obs) ∈ parseRows dateConv dateIdx valIdx rows) := by
  refine ⟨fun row h => ?_, fun row ts h1 h2 => ?_, fun row ts hm h1 h2 => ?_⟩
  · simp [parseRow, h]
  · simp [parseRow, h1, h2]
  · exact List.mem_filterMap.mpr ⟨row, hm, by simp [parseRow, h1, h2]⟩

/-- Witness for C5 at a concrete row with a null value. -/
theorem C5_null_preservation_witness :
    (parseRow dcFix 0 1 [Cell.null, Cell.num 7] = none) ∧
    (parseRow dcFix 0 1 [Cell.num 5, Cell.null] = some ⟨⟨1970, 1, 1⟩, Cell.null⟩) ∧
    ((⟨⟨1970, 1, 1⟩, Cell.null⟩ : Obs) ∈ parseRows dcFix 0 1 [[Cell.num 5, Cell.null]]) := by
  obtain ⟨h1, h2, h3⟩ := C5_null_preservation dcFix 0 1 [[Cell.num 5, Cell.null]]
  exact ⟨h1 [Cell.null, Cell.num 7] rfl, h2 [Cell.num 5, Cell.null] 5 rfl rfl,
    h3 [Cell.num 5, Cell.null] 5 (by decide) rfl rfl⟩

/-! ### C8 -/

/-- C8: corrected PM2.5 formula.  Each corrected value equals the
satellite value times the metadata's scaling factor plus the pipeline's
predicted discrepancy at the same position, and the output has one entry
per predicted discrepancy. -/
theorem C8_corrected_pm25_formula (pipeline : Pipeline) (metadata : Metadata)
    (features_df : List FeatureRow) (satellite_value : ℚ) :
    ((predict_corrected_pm25 pipeline metadata features_df satellite_value).length =
      (predict_discrepancy pipeline features_df).length) ∧
    (∀ (i : Nat) (d : ℚ), (predict_discrepancy pipeline features_df)[i]? = some d →
      (predict_corrected_pm25 pipeline metadata features_df satellite_value)[i]? =
        some (satellite_value * metadata.scaling_factor + d)) := by
  constructor
  · simp [predict_corrected_pm25]
  · intro i d hd
    simp [predict_corrected_pm25, List.getElem?_map, hd]

/-- Witness for C8: a pipeline predicting the constant discrepancy 3
with scaling factor 2 and satellite value 5 yields 5 * 2 + 3 = 13. -/
theorem C8_corrected_pm25_formula_witness :
    (predict_corrected_pm25 pipelineW metadataW [] 5)[0]? = some 13 := by
  have h := (C8_corrected_pm25_formula pipelineW metadataW [] 5).2 0 3 rfl
  rw [h]
  norm_num [metadataW]

/-! ### C9 -/

/-- C9: feature preparation defaults.  The prepared row's columns are
exactly the metadata's feature columns in order; a required feature
present in the input keeps its value, an absent one is filled with the
constant 0, and any input key outside the feature columns is dropped. -/
theorem C9_prepare_features_defaults (data_dict : FeatureRow) (metadata : Metadata) :
    ((prepare_features data_dict metadata).map Prod.fst = metadata.feature_columns) ∧
    (∀ c ∈ metadata.feature_columns, ∀ v : PVal, data_dict.lookup c = some v →
      (prepare_features data_dict metadata).lookup c = some v) ∧
    (∀ c ∈ metadata.feature_columns, data_dict.lookup c = none →
      (prepare_features data_dict metadata).lookup c = some (PVal.num 0)) ∧
    (∀ k, k ∉ metadata.feature_columns →
      (prepare_features data_dict metadata).lookup k = none) := by
  refine ⟨?_, fun c hc v hv => ?_, fun c hc hv => ?_, fun k hk => ?_⟩
  · simp [prepare_features, List.map_map, Function.comp_def]
  · rw [prepare_features, lookup_map_pair, if_pos hc, addMissing_lookup, hv]
    rfl
  · rw [prepare_features, lookup_map_pair, if_pos hc, addMissing_lookup, hv, if_pos hc]
    rfl
  · rw [prepare_features, lookup_map_pair, if_neg hk]

/-- Witness for C9 on a concrete dictionary: feature `a` keeps its
value, missing feature `b` is filled with 0, extra key `x` is dropped,
and the column list is exactly `[a, b]`. -/
theorem C9_prepare_features_defaults_witness :
    ((prepare_features [("a", PVal.num 1), ("x", PVal.str "s")] metadataW).map Prod.fst =
      ["a", "b"]) ∧
    ((prepare_features [("a", PVal.num 1), ("x", PVal.str "s")] metadataW).lookup "a" =
      some (PVal.num 1)) ∧
    ((prepare_features [("a", PVal.num 1), ("x", PVal.str "s")] metadataW).lookup "b" =
      some (PVal.num 0)) ∧
    ((prepare_features [("a", PVal.num 1), ("x", PVal.str "s")] metadataW).lookup "x" =
      none) := by
  obtain ⟨h1, h2, h3, h4⟩ :=
    C9_prepare_features_defaults [("a", PVal.num 1), ("x", PVal.str "s")] metadataW
  exact ⟨h1, h2 "a" (by decide) (PVal.num 1) rfl, h3 "b" (by decide) rfl,
    h4 "x" (by decide)⟩

/-! ### C10 -/

/-- C10: location harmonization fallback.  Harmonization keeps exactly
the rows whose stripped location differs from the literal `"Location"`
(so no row is ever dropped for being unmapped), every surviving row stems
from such an input row with its payload intact and its location mapped
through `location_map` with fallback to the stripped original, a mapped
name is replaced by its satellite-side name, and an unmapped name is kept
unchanged. -/
theorem C10_location_harmonization {α : Type} (rows : List (CRow α)) :
    ((harmonize rows).length =
      (rows.filter (fun r => stripStr r.location ≠ "Location")).length) ∧
    (∀ r2 ∈ harmonize rows, ∃ r ∈ rows, stripStr r.location ≠ "Location" ∧
      r2.payload = r.payload ∧
      r2.location = (location_map.lookup (stripStr r.location)).getD (stripStr r.location)) ∧
    (∀ r ∈ rows, stripStr r.location ≠ "Location" →
      CRow.mk ((location_map.lookup (stripStr r.location)).getD (stripStr r.location))
        r.payload ∈ harmonize rows) ∧
    (∀ r ∈ rows, stripStr r.location ≠ "Location" →
      location_map.lookup (stripStr r.location) = none →
      CRow.mk (stripStr r.location) r.payload ∈ harmonize rows) := by
  have hmem : ∀ r2 : CRow α, r2 ∈ harmonize rows ↔
      ∃ r ∈ rows, stripStr r.location ≠ "Location" ∧
        r2 = CRow.mk ((location_map.lookup (stripStr r.location)).getD (stripStr r.location))
          r.payload := by
    intro r2
    simp only [harmonize, List.mem_map, List.mem_filter]
    constructor
    · rintro ⟨s, ⟨⟨r, hr, rfl⟩, hsl⟩, rfl⟩
      exact ⟨r, hr, by simpa using hsl, rfl⟩
    · rintro ⟨r, hr, hl, rfl⟩
      exact ⟨CRow.mk (stripStr r.location) r.payload,
        ⟨⟨r, hr, rfl⟩, by simpa using hl⟩, rfl⟩
  refine ⟨?_, fun r2 h => ?_, fun r hr hl => ?_, fun r hr hl hnone => ?_⟩
  · simp only [harmonize, List.length_map, List.filter_map]
    simp [Function.comp_def]
  · rcases (hmem r2).mp h with ⟨r, hr, hl, rfl⟩
    exact ⟨r, hr, hl, rfl, rfl⟩
  · exact (hmem _).mpr ⟨r, hr, hl, rfl⟩
  · exact (hmem _).mpr ⟨r, hr, hl, by simp [hnone]⟩

/-- Witness for C10 on three concrete rows: a mapped CPCB name is
replaced, an unmapped name is kept unchanged, and a junk `Location` row
is removed (the output has exactly the two harmonized rows). -/
theorem C10_location_harmonization_witness :
    ((harmonize [CRow.mk "Anand Vihar, Delhi - DPCC" (1 : Nat),
        CRow.mk " Location " 2, CRow.mk "Somewhere Else" 3]).length = 2) ∧
    (CRow.mk "Anand Vihar, Delhi" 1 ∈
      harmonize [CRow.mk "Anand Vihar, Delhi - DPCC" (1 : Nat),
        CRow.mk " Location " 2, CRow.mk "Somewhere Else" 3]) ∧
    (CRow.mk "Somewhere Else" 3 ∈
      harmonize [CRow.mk "Anand Vihar, Delhi - DPCC" (1 : Nat),
        CRow.mk " Location " 2, CRow.mk "Somewhere Else" 3]) := by
  obtain ⟨h1, _h2, h3, h4⟩ :=
    C10_location_harmonization [CRow.mk "Anand Vihar, Delhi - DPCC" (1 : Nat),
      CRow.mk " Location " 2, CRow.mk "Somewhere Else" 3]
  refine ⟨?_, ?_, ?_⟩
  · rw [h1]; decide
  · have hmm := h3 (CRow.mk "Anand Vihar, Delhi - DPCC" (1 : Nat)) (by decide) (by decide)
    have e : CRow.mk ((location_map.lookup (stripStr "Anand Vihar, Delhi - DPCC")).getD
        (stripStr "Anand Vihar, Delhi - DPCC")) (1 : Nat) =
        CRow.mk "Anand Vihar, Delhi" 1 := by decide
    rwa [e] at hmm
  · have hmm := h4 (CRow.mk "Somewhere Else" 3) (by decide) (by decide) (by decide)
    have e : CRow.mk (stripStr "Somewhere Else") (3 : Nat) =
        CRow.mk "Somewhere Else" 3 := by decide
    rwa [e] at hmm

/-! ### Association list and dedup helper lemmas -/

/-- A key outside the stored keys looks up to nothing. -/
theorem lookup_eq_none_of_not_mem_keys {β : Type} (l : List (String × β)) (p : String)
    (h : p ∉ l.map Prod.fst) : l.lookup p = none := by
  induction l with
  | nil => rfl
  | cons x xs ih =>
    obtain ⟨k, b⟩ := x
    simp only [List.map_cons, List.mem_cons] at h
    push_neg at h
    simp [List.lookup_cons, beq_false_of_ne h.1, ih h.2]

/-- A key among the stored keys looks up to something. -/
theorem lookup_isSome_of_mem_keys {β : Type} (l : List (String × β)) (p : String)
    (h : p ∈ l.map Prod.fst) : (l.lookup p).isSome := by
  induction l with
  | nil => simp at h
  | cons x xs ih =>
    obtain ⟨k, b⟩ := x
    by_cases hk : p = k
    · subst hk
      simp [List.lookup_cons]
    · simp only [List.map_cons, List.mem_cons] at h
      rcases h with h | h
      · exact absurd h hk
      · simp [List.lookup_cons, beq_false_of_ne hk, ih h]

/-- Appending further columns does not change lookups of stored keys. -/
theorem lookupCell_append_left (l₁ l₂ : List (String × Cell)) (p : String)
    (h : p ∈ l₁.map Prod.fst) : lookupCell (l₁ ++ l₂) p = lookupCell l₁ p := by
  unfold lookupCell
  rw [List.lookup_append]
  obtain ⟨v, hv⟩ := Option.isSome_iff_exists.mp (lookup_isSome_of_mem_keys l₁ p h)
  simp [hv]

/-- A lookup of a key absent from the first block falls through to the
second. -/
theorem lookupCell_append_right (l₁ l₂ : List (String × Cell)) (p : String)
    (h : p ∉ l₁.map Prod.fst) : lookupCell (l₁ ++ l₂) p = lookupCell l₂ p := by
  unfold lookupCell
  rw [List.lookup_append, lookup_eq_none_of_not_mem_keys l₁ p h]
  rfl

/-- Deduplicated elements come from the original list. -/
theorem dedupKeyedAux_subset {α β : Type} [DecidableEq β] (key : α → β) :
    ∀ (l : List α) (seen : List β), ∀ a ∈ dedupKeyedAux key seen l, a ∈ l := by
  intro l
  induction l with
  | nil =>
    intro seen a ha
    simp [dedupKeyedAux] at ha
  | cons x xs ih =>
    intro seen a ha
    by_cases h : key x ∈ seen
    · simp only [dedupKeyedAux, if_pos h] at ha
      exact List.mem_cons_of_mem _ (ih seen a ha)
    · simp only [dedupKeyedAux, if_neg h, List.mem_cons] at ha
      rcases ha with rfl | ha
      · exact List.mem_cons_self _ _
      · exact List.mem_cons_of_mem _ (ih _ a ha)

/-- Keys of the deduplicated list: exactly the original keys that were
not already seen. -/
theorem dedupKeyedAux_key_mem {α β : Type} [DecidableEq β] (key : α → β) :
    ∀ (l : List α) (seen : List β) (k : β),
      k ∈ (dedupKeyedAux key seen l).map key ↔ k ∈ l.map key ∧ k ∉ seen := by
  intro l
  induction l with
  | nil =>
    intro seen k
    simp [dedupKeyedAux]
  | cons x xs ih =>
    intro seen k
    by_cases h : key x ∈ seen
    · simp only [dedupKeyedAux, if_pos h, List.map_cons, List.mem_cons]
      rw [ih]
      constructor
      · rintro ⟨hk, hs⟩
        exact ⟨Or.inr hk, hs⟩
      · rintro ⟨hk | hk, hs⟩
        · exact absurd (hk ▸ h) hs
        · exact ⟨hk, hs⟩
    · simp only [dedupKeyedAux, if_neg h, List.map_cons, List.mem_cons]
      rw [ih]
      constructor
      · rintro (rfl | ⟨hk, hs⟩)
        · exact ⟨Or.inl rfl, h⟩
        · simp only [List.mem_cons, not_or] at hs
          exact ⟨Or.inr hk, hs.2⟩
      · rintro ⟨hk | hk, hs⟩
        · exact Or.inl hk
        · by_cases hkx : k = key x
          · exact Or.inl hkx
          · refine Or.inr ⟨hk, ?_⟩
            simp only [List.mem_cons, not_or]
            exact ⟨hkx, hs⟩

/-- Each deduplicated element whose key was unseen is the first element
of the list carrying its key. -/
theorem dedupKeyedAux_first {α β : Type} [DecidableEq β] (key : α → β) :
    ∀ (l : List α) (seen : List β), ∀ a ∈ dedupKeyedAux key seen l,
      key a ∉ seen ∧ l.find? (fun b => key b == key a) = some a := by
  intro l
  induction l with
  | nil =>
    intro seen a ha
    simp [dedupKeyedAux] at ha
  | cons x xs ih =>
    intro seen a ha
    by_cases h : key x ∈ seen
    · simp only [dedupKeyedAux, if_pos h] at ha
      obtain ⟨hks, hfind⟩ := ih seen a ha
      have hne : (key x == key a) = false := by
        apply beq_false_of_ne
        intro he
        exact hks (he ▸ h)
      refine ⟨hks, ?_⟩
      simp [List.find?_cons, hne, hfind]
    · simp only [dedupKeyedAux, if_neg h, List.mem_cons] at ha
      rcases ha with rfl | ha
      · refine ⟨h, ?_⟩
        simp [List.find?_cons]
      · obtain ⟨hks, hfind⟩ := ih _ a ha
        simp only [List.mem_cons, not_or] at hks
        have hne : (key x == key a) = false := by
          apply beq_false_of_ne
          intro he
          exact hks.1 he.symm
        refine ⟨hks.2, ?_⟩
        simp [List.find?_cons, hne, hfind]

/-- The deduplicated key column has no duplicates. -/
theorem dedupKeyedAux_key_nodup {α β : Type} [DecidableEq β] (key : α → β) :
    ∀ (l : List α) (seen : List β), ((dedupKeyedAux key seen l).map key).Nodup := by
  intro l
  induction l with
  | nil =>
    intro seen
    simp [dedupKeyedAux]
  | cons x xs ih =>
    intro seen
    by_cases h : key x ∈ seen
    · simpa [dedupKeyedAux, if_pos h] using ih seen
    · simp only [dedupKeyedAux, if_neg h, List.map_cons, List.nodup_cons]
      refine ⟨fun hc => ?_, ih _⟩
      have hmm := (dedupKeyedAux_key_mem key xs (key x :: seen) (key x)).mp hc
      exact hmm.2 (List.mem_cons_self _ _)

/-! ### Outer-merge lemmas -/

/-- Structure of an outer-merged row: either it extends a left row by the
new column (the matched value, or null when the product lacks the date),
or it is a new date from the right table with all earlier columns
null-padded. -/
theorem mem_mergeOuter {cols : List String} {left : List URow} {g : String}
    {ts : List Obs} {r : URow} (h : r ∈ mergeOuter cols left g ts) :
    (∃ lr ∈ left, r.date = lr.date ∧
      ((ts.filter (fun o => o.date == lr.date) = [] ∧
          r.vals = lr.vals ++ [(g, Cell.null)]) ∨
        (∃ o ∈ ts, o.date = lr.date ∧ r.vals = lr.vals ++ [(g, o.value)]))) ∨
    (∃ o ∈ ts, o.date ∉ datesOf left ∧ r.date = o.date ∧
      r.vals = cols.map (fun c => (c, Cell.null)) ++ [(g, o.value)]) := by
  unfold mergeOuter at h
  rcases List.mem_append.mp h with h | h
  · left
    rcases List.mem_flatMap.mp h with ⟨lr, hlr, hr⟩
    refine ⟨lr, hlr, ?_⟩
    by_cases hms : (ts.filter (fun o => o.date == lr.date)).isEmpty
    · rw [if_pos hms] at hr
      rcases List.mem_singleton.mp hr with rfl
      exact ⟨rfl, Or.inl ⟨List.isEmpty_iff.mp hms, rfl⟩⟩
    · rw [if_neg hms] at hr
      rcases List.mem_map.mp hr with ⟨o, ho, rfl⟩
      have ho2 := List.mem_filter.mp ho
      exact ⟨rfl, Or.inr ⟨o, ho2.1, eq_of_beq ho2.2, rfl⟩⟩
  · right
    rcases List.mem_map.mp h with ⟨o, ho, rfl⟩
    have ho2 := List.mem_filter.mp ho
    refine ⟨o, ho2.1, ?_, rfl, rfl⟩
    simpa using ho2.2

/-- Every left row's date survives the outer merge. -/
theorem mergeOuter_left_date (cols : List String) (left : List URow) (g : String)
    (ts : List Obs) {lr : URow} (hlr : lr ∈ left) :
    ∃ r ∈ mergeOuter cols left g ts, r.date = lr.date := by
  by_cases hms : (ts.filter (fun o => o.date == lr.date)).isEmpty
  · refine ⟨⟨lr.date, lr.vals ++ [(g, Cell.null)]⟩, ?_, rfl⟩
    apply List.mem_append_left
    exact List.mem_flatMap.mpr ⟨lr, hlr, by rw [if_pos hms]; exact List.mem_singleton.mpr rfl⟩
  · have hne : ts.filter (fun o => o.date == lr.date) ≠ [] := by
      intro hc
      rw [hc] at hms
      simp at hms
    obtain ⟨o, ho⟩ := List.exists_mem_of_ne_nil _ hne
    refine ⟨⟨lr.date, lr.vals ++ [(g, o.value)]⟩, ?_, rfl⟩
    apply List.mem_append_left
    exact List.mem_flatMap.mpr ⟨lr, hlr, by rw [if_neg hms]; exact List.mem_map_of_mem _ ho⟩

/-- The dates of an outer merge are the union of both sides' dates. -/
theorem mergeOuter_dates (cols : List String) (left : List URow) (g : String)
    (ts : List Obs) (d : Date) :
    d ∈ datesOf (mergeOuter cols left g ts) ↔ d ∈ datesOf left ∨ d ∈ obsDates ts := by
  constructor
  · intro h
    rcases List.mem_map.mp h with ⟨r, hr, rfl⟩
    rcases mem_mergeOuter hr with ⟨lr, hlr, hd, _⟩ | ⟨o, ho, _, hd, _⟩
    · exact Or.inl (by rw [datesOf, hd]; exact List.mem_map_of_mem _ hlr)
    · exact Or.inr (by rw [obsDates, hd]; exact List.mem_map_of_mem _ ho)
  · intro h
    rcases h with h | h
    · rcases List.mem_map.mp h with ⟨lr, hlr, rfl⟩
      obtain ⟨r, hr, hrd⟩ := mergeOuter_left_date cols left g ts hlr
      exact List.mem_map.mpr ⟨r, hr, hrd⟩
    · rcases List.mem_map.mp h with ⟨o, ho, rfl⟩
      by_cases hl : o.date ∈ datesOf left
      · rcases List.mem_map.mp hl with ⟨lr, hlr, hde⟩
        obtain ⟨r, hr, hrd⟩ := mergeOuter_left_date cols left g ts hlr
        exact List.mem_map.mpr ⟨r, hr, by rw [hrd, hde]⟩
      · refine List.mem_map.mpr
          ⟨⟨o.date, cols.map (fun c => (c, Cell.null)) ++ [(g, o.value)]⟩, ?_, rfl⟩
        apply List.mem_append_right
        apply List.mem_map_of_mem
        exact List.mem_filter.mpr ⟨ho, by simpa using hl⟩

/-- The outer merge appends exactly the new column to each row's keys. -/
theorem mergeOuter_keys {cols : List String} {left : List URow} {g : String}
    {ts : List Obs} (hkeys : ∀ lr ∈ left, lr.vals.map Prod.fst = cols) :
    ∀ r ∈ mergeOuter cols left g ts, r.vals.map Prod.fst = cols ++ [g] := by
  intro r hr
  rcases mem_mergeOuter hr with ⟨lr, hlr, _, hcase⟩ | ⟨o, _, _, _, hv⟩
  · rcases hcase with ⟨_, hv⟩ | ⟨o, _, _, hv⟩ <;>
      simp [hv, hkeys lr hlr]
  · simp [hv, List.map_map, Function.comp_def]

/-- A null-column property over the previously accumulated columns is
preserved by the outer merge (new rows are null-padded there). -/
theorem mergeOuter_null_preserve {cols : List String} {left : List URow} {g : String}
    {ts : List Obs} {p : String} (bad : Date → Prop) (hp : p ∈ cols)
    (hkeys : ∀ lr ∈ left, lr.vals.map Prod.fst = cols)
    (hnull : ∀ lr ∈ left, bad lr.date → lookupCell lr.vals p = Cell.null) :
    ∀ r ∈ mergeOuter cols left g ts, bad r.date → lookupCell r.vals p = Cell.null := by
  intro r hr hbad
  rcases mem_mergeOuter hr with ⟨lr, hlr, hd, hcase⟩ | ⟨o, _, _, hd, hv⟩
  · have hmem : p ∈ lr.vals.map Prod.fst := by
      rw [hkeys lr hlr]
      exact hp
    have hleft : lookupCell lr.vals p = Cell.null := hnull lr hlr (by rwa [hd] at hbad)
    rcases hcase with ⟨_, hv⟩ | ⟨o, _, _, hv⟩ <;>
      rw [hv, lookupCell_append_left _ _ _ hmem] <;> exact hleft
  · rw [hv, lookupCell_append_left]
    · unfold lookupCell
      rw [lookup_map_pair]
      simp [hp]
    · simp [List.map_map, Function.comp_def, hp]

/-- After merging in product `g` (a fresh column name), every row whose
date `g` did not observe carries null in column `g`. -/
theorem mergeOuter_null_establish {cols : List String} {left : List URow} {g : String}
    {ts : List Obs} (hg : g ∉ cols)
    (hkeys : ∀ lr ∈ left, lr.vals.map Prod.fst = cols) :
    ∀ r ∈ mergeOuter cols left g ts, (∀ o ∈ ts, o.date ≠ r.date) →
      lookupCell r.vals g = Cell.null := by
  intro r hr hno
  rcases mem_mergeOuter hr with ⟨lr, hlr, hd, hcase⟩ | ⟨o, ho, _, hd, _⟩
  · rcases hcase with ⟨hemp, hv⟩ | ⟨o, ho, hod, hv⟩
    · have hgk : g ∉ lr.vals.map Prod.fst := by
        rw [hkeys lr hlr]
        exact hg
      rw [hv, lookupCell_append_right _ _ _ hgk]
      simp [lookupCell, List.lookup_cons]
    · exact absurd (hod.trans hd.symm) (hno o ho)
  · exact absurd hd.symm (hno o ho)

/-- The outer merge of a non-empty table is non-empty. -/
theorem mergeOuter_ne_nil {cols : List String} {left : List URow} {g : String}
    {ts : List Obs} (h : left ≠ []) : mergeOuter cols left g ts ≠ [] := by
  obtain ⟨lr, hlr⟩ := List.exists_mem_of_ne_nil left h
  obtain ⟨r, hr, _⟩ := mergeOuter_left_date cols left g ts hlr
  exact List.ne_nil_of_mem hr

/-! ### The per-product merge fold -/

/-- Invariant-carrying specification of the per-product merge fold: every
row's keys equal the accumulated column list; an empty table forces an
empty column list; the final columns are the old ones plus the names of
the non-empty results in order; the final dates are the old dates united
with the dates of all non-empty results; and a null-column property over
the old columns is preserved. -/
theorem unitMergeAux_spec (results : List (String × List Obs)) :
    ∀ cols df, (∀ r ∈ df, r.vals.map Prod.fst = cols) → (df = [] → cols = []) →
      (∀ r ∈ (unitMergeAux cols df results).2,
        r.vals.map Prod.fst = (unitMergeAux cols df results).1) ∧
      ((unitMergeAux cols df results).2 = [] → (unitMergeAux cols df results).1 = []) ∧
      ((unitMergeAux cols df results).1 =
        cols ++ (results.filter (fun p => !p.2.isEmpty)).map Prod.fst) ∧
      (∀ d, d ∈ datesOf (unitMergeAux cols df results).2 ↔
        d ∈ datesOf df ∨ ∃ p ∈ results, p.2 ≠ [] ∧ d ∈ obsDates p.2) ∧
      (∀ (p : String) (bad : Date → Prop), p ∈ cols →
        (∀ r ∈ df, bad r.date → lookupCell r.vals p = Cell.null) →
        ∀ r ∈ (unitMergeAux cols df results).2, bad r.date →
          lookupCell r.vals p = Cell.null) := by
  induction results with
  | nil =>
    intro cols df hkeys hemp
    exact ⟨hkeys, hemp, by simp [unitMergeAux],
      fun d => by simp [unitMergeAux],
      fun p bad hp hnull r hr hbad => hnull r hr hbad⟩
  | cons hd rest ih =>
    intro cols df hkeys hemp
    obtain ⟨g, ts⟩ := hd
    by_cases hts : ts.isEmpty
    · have hts0 : ts = [] := List.isEmpty_iff.mp hts
      have hstep : unitMergeAux cols df ((g, ts) :: rest) = unitMergeAux cols df rest := by
        simp [unitMergeAux, hts]
      rw [hstep]
      obtain ⟨i1, i2, i3, i4, i5⟩ := ih cols df hkeys hemp
      refine ⟨i1, i2, ?_, ?_, i5⟩
      · rw [i3]
        simp [hts]
      · intro d
        rw [i4 d]
        simp only [List.exists_mem_cons_iff, hts0]
        tauto
    · have htsne : ts ≠ [] := fun hh => by simp [hh] at hts
      by_cases hdf : df.isEmpty
      · have hdfe : df = [] := List.isEmpty_iff.mp hdf
        have hcols : cols = [] := hemp hdfe
        have hstep : unitMergeAux cols df ((g, ts) :: rest) =
            unitMergeAux [g] (ts.map (fun o => URow.mk o.date [(g, o.value)])) rest := by
          simp [unitMergeAux, hts, hdf]
        rw [hstep]
        have hk : ∀ r ∈ ts.map (fun o => URow.mk o.date [(g, o.value)]),
            r.vals.map Prod.fst = [g] := by
          intro r hr
          rcases List.mem_map.mp hr with ⟨o, _, rfl⟩
          rfl
        have he : ts.map (fun o => URow.mk o.date [(g, o.value)]) = [] → [g] = [] := by
          intro hh
          exact absurd (List.map_eq_nil_iff.mp hh) htsne
        obtain ⟨i1, i2, i3, i4, i5⟩ := ih [g] _ hk he
        refine ⟨i1, i2, ?_, ?_, ?_⟩
        · rw [i3, hcols]
          simp [hts]
        · intro d
          rw [i4 d]
          have hdates : datesOf (ts.map (fun o => URow.mk o.date [(g, o.value)])) =
              obsDates ts := by
            simp [datesOf, obsDates, List.map_map, Function.comp_def]
          rw [hdates]
          simp only [List.exists_mem_cons_iff, hdfe, datesOf, List.map_nil,
            List.not_mem_nil, false_or]
          tauto
        · intro p bad hp
          rw [hcols] at hp
          exact absurd hp (List.not_mem_nil p)
      · have hdfne : df ≠ [] := fun hh => by simp [hh] at hdf
        have hstep : unitMergeAux cols df ((g, ts) :: rest) =
            unitMergeAux (cols ++ [g]) (mergeOuter cols df g ts) rest := by
          simp [unitMergeAux, hts, hdf]
        rw [hstep]
        have hk := @mergeOuter_keys cols df g ts hkeys
        have hne := @mergeOuter_ne_nil cols df g ts hdfne
        obtain ⟨i1, i2, i3, i4, i5⟩ :=
          ih (cols ++ [g]) (mergeOuter cols df g ts) hk (fun hh => absurd hh hne)
        refine ⟨i1, i2, ?_, ?_, ?_⟩
        · rw [i3]
          simp [hts]
        · intro d
          rw [i4 d]
          simp only [mergeOuter_dates, List.exists_mem_cons_iff]
          constructor
          · rintro ((h | h) | h)
            · exact Or.inl h
            · exact Or.inr (Or.inl ⟨htsne, h⟩)
            · exact Or.inr (Or.inr h)
          · rintro (h | (⟨_, h⟩ | h))
            · exact Or.inl (Or.inl h)
            · exact Or.inl (Or.inr h)
            · exact Or.inr h
        · intro p bad hp hnull
          exact i5 p bad (List.mem_append_left _ hp)
            (mergeOuter_null_preserve bad hp hkeys hnull)

/-- The merge fold splits over list concatenation. -/
theorem unitMergeAux_append (l₁ l₂ : List (String × List Obs)) :
    ∀ cols df, unitMergeAux cols df (l₁ ++ l₂) =
      unitMergeAux (unitMergeAux cols df l₁).1 (unitMergeAux cols df l₁).2 l₂ := by
  induction l₁ with
  | nil => intro cols df; rfl
  | cons hd rest ih =>
    intro cols df
    obtain ⟨g, ts⟩ := hd
    by_cases hts : ts.isEmpty <;> by_cases hdf : df.isEmpty <;>
      simp [unitMergeAux, hts, hdf, ih]

/-! ### C6 -/

/-- C6: outer-join completeness of the monthly merge.  For every
(location, month) unit, a date appears in the merged table exactly when
some product with a non-empty fetch result observed it (union of dates,
not intersection), and every product with a non-empty result that lacks
the date of a merged row carries a null in that row. -/
theorem C6_outer_join_completeness (env : Env) (loc : String) (y m : Nat) :
    (∀ d : Date, d ∈ datesOf (unitMerge (unitResults env loc y m)) ↔
      ∃ g ∈ product_names, env.fetch loc y m g ≠ [] ∧
        d ∈ obsDates (env.fetch loc y m g)) ∧
    (∀ r ∈ unitMerge (unitResults env loc y m), ∀ g ∈ product_names,
      env.fetch loc y m g ≠ [] → (∀ o ∈ env.fetch loc y m g, o.date ≠ r.date) →
      lookupCell r.vals g = Cell.null) := by
  constructor
  · intro d
    obtain ⟨_, _, _, hdates, _⟩ :=
      unitMergeAux_spec (unitResults env loc y m) [] [] (by simp) (by simp)
    rw [unitMerge, hdates d]
    simp only [datesOf, List.map_nil, List.not_mem_nil, false_or]
    constructor
    · rintro ⟨p, hp, hne, hd⟩
      rcases List.mem_map.mp hp with ⟨g, hg, rfl⟩
      exact ⟨g, hg, hne, hd⟩
    · rintro ⟨g, hg, hne, hd⟩
      exact ⟨(g, env.fetch loc y m g), List.mem_map_of_mem _ hg, hne, hd⟩
  · intro r hr g hg hne hno
    obtain ⟨l₁, l₂, hsplit⟩ := List.append_of_mem hg
    have hnodup : product_names.Nodup := by decide
    have hgl₁ : g ∉ l₁ := by
      rw [hsplit, List.nodup_append] at hnodup
      intro hc
      exact hnodup.2.2 hc (List.mem_cons_self g l₂)
    have hres : unitResults env loc y m =
        l₁.map (fun g2 => (g2, env.fetch loc y m g2)) ++
          (g, env.fetch loc y m g) :: l₂.map (fun g2 => (g2, env.fetch loc y m g2)) := by
      rw [unitResults, hsplit]
      simp
    obtain ⟨a1, a2, a3, _, _⟩ :=
      unitMergeAux_spec (l₁.map (fun g2 => (g2, env.fetch loc y m g2))) [] []
        (by simp) (by simp)
    have hgc : g ∉ (unitMergeAux [] [] (l₁.map (fun g2 => (g2, env.fetch loc y m g2)))).1 := by
      rw [a3]
      simp only [List.nil_append]
      intro hc
      rcases List.mem_map.mp hc with ⟨p, hp, hpf⟩
      rcases List.mem_map.mp (List.mem_of_mem_filter hp) with ⟨g2, hg2, hfp⟩
      apply hgl₁
      have hpg2 : p.1 = g2 := by rw [← hfp]
      have hgg : g = g2 := by rw [← hpf, hpg2]
      rw [hgg]
      exact hg2
    have htsne : ¬ (env.fetch loc y m g).isEmpty := by
      simpa [List.isEmpty_iff] using hne
    have hrw : unitMerge (unitResults env loc y m) =
        (unitMergeAux
          (unitMergeAux [] [] (l₁.map (fun g2 => (g2, env.fetch loc y m g2)))).1
          (unitMergeAux [] [] (l₁.map (fun g2 => (g2, env.fetch loc y m g2)))).2
          ((g, env.fetch loc y m g) :: l₂.map (fun g2 => (g2, env.fetch loc y m g2)))).2 := by
      rw [unitMerge, hres, unitMergeAux_append]
    by_cases hdf : (unitMergeAux [] [] (l₁.map (fun g2 => (g2, env.fetch loc y m g2)))).2.isEmpty
    · -- the fold so far is empty: product g seeds the table
      have hdfe := List.isEmpty_iff.mp hdf
      have hstep : (unitMergeAux
            (unitMergeAux [] [] (l₁.map (fun g2 => (g2, env.fetch loc y m g2)))).1
            (unitMergeAux [] [] (l₁.map (fun g2 => (g2, env.fetch loc y m g2)))).2
            ((g, env.fetch loc y m g) :: l₂.map (fun g2 => (g2, env.fetch loc y m g2)))).2 =
          (unitMergeAux [g]
            ((env.fetch loc y m g).map (fun o => URow.mk o.date [(g, o.value)]))
            (l₂.map (fun g2 => (g2, env.fetch loc y m g2)))).2 := by
        simp [unitMergeAux, htsne, hdf]
      rw [hrw, hstep] at hr
      have hk : ∀ r2 ∈ (env.fetch loc y m g).map (fun o => URow.mk o.date [(g, o.value)]),
          r2.vals.map Prod.fst = [g] := by
        intro r2 hr2
        rcases List.mem_map.mp hr2 with ⟨o, _, rfl⟩
        rfl
      have he : (env.fetch loc y m g).map (fun o => URow.mk o.date [(g, o.value)]) = [] →
          [g] = [] := by
        intro hh
        exact absurd (List.map_eq_nil_iff.mp hh) hne
      obtain ⟨_, _, _, _, i5⟩ :=
        unitMergeAux_spec (l₂.map (fun g2 => (g2, env.fetch loc y m g2))) [g]
          ((env.fetch loc y m g).map (fun o => URow.mk o.date [(g, o.value)])) hk he
      refine i5 g (fun d => ∀ o ∈ env.fetch loc y m g, o.date ≠ d)
        (List.mem_singleton.mpr rfl) ?_ r hr hno
      intro r2 hr2 hbad
      rcases List.mem_map.mp hr2 with ⟨o, ho, rfl⟩
      exact absurd rfl (hbad o ho)
    · -- the fold so far is non-empty: product g is outer-merged in
      have hdfne : (unitMergeAux [] [] (l₁.map (fun g2 => (g2, env.fetch loc y m g2)))).2 ≠ [] :=
        fun hh => by simp [hh] at hdf
      have hstep : (unitMergeAux
            (unitMergeAux [] [] (l₁.map (fun g2 => (g2, env.fetch loc y m g2)))).1
            (unitMergeAux [] [] (l₁.map (fun g2 => (g2, env.fetch loc y m g2)))).2
            ((g, env.fetch loc y m g) :: l₂.map (fun g2 => (g2, env.fetch loc y m g2)))).2 =
          (unitMergeAux
            ((unitMergeAux [] [] (l₁.map (fun g2 => (g2, env.fetch loc y m g2)))).1 ++ [g])
            (mergeOuter
              (unitMergeAux [] [] (l₁.map (fun g2 => (g2, env.fetch loc y m g2)))).1
              (unitMergeAux [] [] (l₁.map (fun g2 => (g2, env.fetch loc y m g2)))).2
              g (env.fetch loc y m g))
            (l₂.map (fun g2 => (g2, env.fetch loc y m g2)))).2 := by
        simp [unitMergeAux, htsne, hdf]
      rw [hrw, hstep] at hr
      have hk := @mergeOuter_keys
        (unitMergeAux [] [] (l₁.map (fun g2 => (g2, env.fetch loc y m g2)))).1
        (unitMergeAux [] [] (l₁.map (fun g2 => (g2, env.fetch loc y m g2)))).2
        g (env.fetch loc y m g) a1
      have hmne := @mergeOuter_ne_nil
        (unitMergeAux [] [] (l₁.map (fun g2 => (g2, env.fetch loc y m g2)))).1
        (unitMergeAux [] [] (l₁.map (fun g2 => (g2, env.fetch loc y m g2)))).2
        g (env.fetch loc y m g) hdfne
      obtain ⟨_, _, _, _, i5⟩ :=
        unitMergeAux_spec (l₂.map (fun g2 => (g2, env.fetch loc y m g2))) _ _
          hk (fun hh => absurd hh hmne)
      refine i5 g (fun d => ∀ o ∈ env.fetch loc y m g, o.date ≠ d)
        (List.mem_append_right _ (List.mem_singleton.mpr rfl)) ?_ r hr hno
      exact mergeOuter_null_establish hgc a1

/-- Witness for C6 at the spec's example: with `NO2` observing days 1
and 3 and `SO2` days 2 and 3, day 2 appears in the merged unit and its
row (a right-only row of the `SO2` merge) carries null for `NO2`. -/
theorem C6_outer_join_completeness_witness :
    ((⟨2020, 1, 2⟩ : Date) ∈ datesOf (unitMerge (unitResults env6 "L" 2020 1))) ∧
    lookupCell [("NO2", Cell.null), ("SO2", Cell.num 2)] "NO2" = Cell.null := by
  obtain ⟨h1, h2⟩ := C6_outer_join_completeness env6 "L" 2020 1
  constructor
  · exact (h1 ⟨2020, 1, 2⟩).mpr ⟨"SO2", by decide, by decide, by decide⟩
  · exact h2 ⟨⟨2020, 1, 2⟩, [("NO2", Cell.null), ("SO2", Cell.num 2)]⟩ (by decide)
      "NO2" (by decide) (by decide) (by decide)

/-! ### C7 -/

/-- C7: monthly row shaping.  For every non-empty merged unit the
appended rows are deduplicated by date keeping the first occurrence (the
output dates are distinct, cover exactly the merged dates, and each
output row is shaped from the first merged row carrying its date); every
row carries the unit's location as a constant; the value columns are
exactly the products in catalog order (the fixed header order
`[date, product1..productN, location]` is encoded structurally by `Row`);
and a product absent from every merged row's columns yields an all-null
column. -/
theorem C7_monthly_row_shaping (df : List URow) (loc : String) (h : df ≠ []) :
    (∀ r ∈ finalizeUnit df loc, r.location = loc) ∧
    ((finalizeUnit df loc).map Row.date).Nodup ∧
    (∀ d : Date, d ∈ (finalizeUnit df loc).map Row.date ↔ d ∈ datesOf df) ∧
    (∀ r ∈ finalizeUnit df loc,
      ∃ u, df.find? (fun v => v.date == r.date) = some u ∧
        r.vals = product_names.map (fun p => lookupCell u.vals p)) ∧
    (∀ r ∈ finalizeUnit df loc, r.vals.length = product_names.length) ∧
    (∀ p : String, (∀ u ∈ df, p ∉ u.vals.map Prod.fst) →
      ∀ r ∈ finalizeUnit df loc, ∀ (i : Nat) (hi : i < product_names.length),
        product_names[i] = p →
        ∀ hi2 : i < r.vals.length, r.vals[i] = Cell.null) := by
  have hne : ¬ df.isEmpty := by simpa [List.isEmpty_iff] using h
  have hfin : finalizeUnit df loc =
      (dedupKeyed URow.date df).map
        (fun u => Row.mk u.date (product_names.map (fun p => lookupCell u.vals p)) loc) := by
    simp [finalizeUnit, hne]
  refine ⟨?_, ?_, ?_, ?_, ?_, ?_⟩
  · intro r hr
    rw [hfin] at hr
    rcases List.mem_map.mp hr with ⟨u, _, rfl⟩
    rfl
  · rw [hfin, List.map_map]
    exact dedupKeyedAux_key_nodup URow.date df []
  · intro d
    rw [hfin, List.map_map]
    have hmm := dedupKeyedAux_key_mem URow.date df [] d
    simp only [List.not_mem_nil, not_false_iff, and_true] at hmm
    exact hmm
  · intro r hr
    rw [hfin] at hr
    rcases List.mem_map.mp hr with ⟨u, hu, rfl⟩
    obtain ⟨_, hfind⟩ := dedupKeyedAux_first URow.date df [] u hu
    exact ⟨u, hfind, rfl⟩
  · intro r hr
    rw [hfin] at hr
    rcases List.mem_map.mp hr with ⟨u, _, rfl⟩
    simp
  · intro p hp r hr i hi hpi hi2
    rw [hfin] at hr
    rcases List.mem_map.mp hr with ⟨u, hu, rfl⟩
    have hudf : u ∈ df := dedupKeyedAux_subset URow.date df [] u hu
    simp only [List.getElem_map]
    rw [hpi]
    unfold lookupCell
    rw [lookup_eq_none_of_not_mem_keys _ _ (hp u hudf)]
    rfl

/-- Witness for C7 on a concrete duplicated-date table: output dates are
distinct, day 2 is kept, the first day-1 row is the one that survives
(via `find?`), and the absent product `SO2` yields null at its column
position in the first output row. -/
theorem C7_monthly_row_shaping_witness :
    (((finalizeUnit df7 "L").map Row.date).Nodup) ∧
    ((⟨2020, 1, 2⟩ : Date) ∈ (finalizeUnit df7 "L").map Row.date) ∧
    (∃ u, df7.find? (fun v => v.date ==
        (Row.mk ⟨2020, 1, 1⟩ (product_names.map (fun p =>
          lookupCell [("NO2", Cell.num 1)] p)) "L").date) = some u ∧
      (Row.mk ⟨2020, 1, 1⟩ (product_names.map (fun p =>
        lookupCell [("NO2", Cell.num 1)] p)) "L").vals =
        product_names.map (fun p => lookupCell u.vals p)) ∧
    ((Row.mk ⟨2020, 1, 1⟩ (product_names.map (fun p =>
      lookupCell [("NO2", Cell.num 1)] p)) "L").vals[1] = Cell.null) := by
  obtain ⟨_, h2, h3, h4, _, h6⟩ := C7_monthly_row_shaping df7 "L" (by decide)
  refine ⟨h2, (h3 ⟨2020, 1, 2⟩).mpr (by decide), ?_, ?_⟩
  · exact h4 _ (by decide)
  · exact h6 "SO2" (by decide) _ (by decide) 1 (by decide) (by decide) (by decide)

/-! ### Orchestration loop lemmas -/

/-- Rows of a finalized unit carry the unit's location and a date drawn
from the merged table. -/
theorem finalizeUnit_mem {df : List URow} {loc : String} {r : Row}
    (hr : r ∈ finalizeUnit df loc) :
    r.location = loc ∧ ∃ u ∈ df, r.date = u.date := by
  rw [finalizeUnit] at hr
  by_cases hdf : df.isEmpty
  · rw [if_pos hdf] at hr
    exact absurd hr (List.not_mem_nil r)
  · rw [if_neg hdf] at hr
    rcases List.mem_map.mp hr with ⟨u, hu, rfl⟩
    exact ⟨rfl, u, dedupKeyedAux_subset URow.date df [] u hu, rfl⟩

/-- Every date of a merged unit comes from some non-empty product
result. -/
theorem unitMerge_date_mem {results : List (String × List Obs)} {d : Date}
    (h : d ∈ datesOf (unitMerge results)) :
    ∃ p ∈ results, p.2 ≠ [] ∧ d ∈ obsDates p.2 := by
  obtain ⟨_, _, _, hdates, _⟩ := unitMergeAux_spec results [] [] (by simp) (by simp)
  rw [unitMerge] at h
  have hmm := (hdates d).mp h
  simpa [datesOf] using hmm

/-- Every appended row of a unit carries the unit's location and — for a
well-dated collaborator — the unit's year and month. -/
theorem processUnit_rows (env : Env) (loc : String) (y m : Nat)
    (hwd : wellDated env) (hloc : loc ∈ locationNames) (hy : y ∈ yearsList env)
    (hm : m ∈ monthsList env y) :
    ∀ r ∈ processUnit env loc y m,
      r.location = loc ∧ r.date.year = y ∧ r.date.month = m := by
  intro r hr
  rw [processUnit] at hr
  obtain ⟨hl, u, hu, hdate⟩ := finalizeUnit_mem hr
  refine ⟨hl, ?_⟩
  have hd : r.date ∈ datesOf (unitMerge (unitResults env loc y m)) := by
    rw [hdate, datesOf]
    exact List.mem_map_of_mem _ hu
  obtain ⟨p, hp, _, hdp⟩ := unitMerge_date_mem hd
  rcases List.mem_map.mp hp with ⟨g, hg, rfl⟩
  rcases List.mem_map.mp hdp with ⟨o, ho, hod⟩
  have hym := hwd loc hloc y hy m hm g hg o ho
  exact ⟨hod ▸ hym.1, hod ▸ hym.2⟩

/-- Units of one location carry that location and loop-range year and
month. -/
theorem mem_unitsOfLoc {env : Env} {loc : String} {u : String × Nat × Nat}
    (h : u ∈ unitsOfLoc env loc) :
    u.1 = loc ∧ u.2.1 ∈ yearsList env ∧ u.2.2 ∈ monthsList env u.2.1 := by
  rw [unitsOfLoc] at h
  rcases List.mem_flatMap.mp h with ⟨y, hy, hu⟩
  rcases List.mem_map.mp hu with ⟨m, hm, rfl⟩
  exact ⟨rfl, hy, hm⟩

/-- Units come from the catalog and the loop ranges. -/
theorem mem_allUnits {env : Env} {u : String × Nat × Nat} (h : u ∈ allUnits env) :
    u.1 ∈ locationNames ∧ u.2.1 ∈ yearsList env ∧ u.2.2 ∈ monthsList env u.2.1 := by
  rcases List.mem_flatMap.mp h with ⟨loc, hloc, hu⟩
  obtain ⟨h1, h2, h3⟩ := mem_unitsOfLoc hu
  exact ⟨h1 ▸ hloc, h2, h3⟩

/-- Flat maps agree when the block functions agree on members. -/
theorem flatMap_congr_mem {α β : Type} {l : List α} {f h : α → List β}
    (he : ∀ a ∈ l, f a = h a) : l.flatMap f = l.flatMap h := by
  induction l with
  | nil => rfl
  | cons x xs ih =>
    simp only [List.flatMap_cons]
    rw [he x (List.mem_cons_self x xs), ih fun a ha => he a (List.mem_cons_of_mem x ha)]

/-- The main loop in per-unit form: one block per unit in iteration
order, skipped blocks empty. -/
theorem runLoop_eq (env : Env) (rp : Option Checkpoint) (processed : List String) :
    runLoop env rp processed = (allUnits env).flatMap (fun u =>
      if u.1 ∈ processed ∨ shouldSkipMonth rp u.1 u.2.1 u.2.2 then []
      else procU env u) := by
  rw [runLoop, allUnits, List.flatMap_assoc]
  refine flatMap_congr_mem ?_
  intro loc _
  by_cases hloc : loc ∈ processed
  · rw [if_pos hloc, eq_comm, List.flatMap_eq_nil_iff]
    intro u hu
    have h1 := (mem_unitsOfLoc hu).1
    rw [if_pos (Or.inl (h1 ▸ hloc))]
  · rw [if_neg hloc, unitsOfLoc, List.flatMap_assoc]
    refine flatMap_congr_mem ?_
    intro y _
    rw [List.flatMap_map]
    refine flatMap_congr_mem ?_
    intro m _
    simp only [hloc, false_or]
    rfl

/-- Iteration order on units: non-decreasing location position in the
catalog, strictly increasing (year, month) within a location. -/
def unitLE (u v : String × Nat × Nat) : Prop :=
  List.indexOf u.1 locationNames ≤ List.indexOf v.1 locationNames ∧
  (u.1 = v.1 → (u.2.1 < v.2.1 ∨ (u.2.1 = v.2.1 ∧ u.2.2 < v.2.2)))

/-- Within one location, units are strictly increasing in (year, month). -/
theorem unitsOfLoc_pairwise (env : Env) (loc : String) :
    (unitsOfLoc env loc).Pairwise unitLE := by
  rw [unitsOfLoc, List.flatMap_def, List.pairwise_flatten]
  constructor
  · intro l hl
    rcases List.mem_map.mp hl with ⟨y, _, rfl⟩
    rw [List.pairwise_map]
    refine (List.pairwise_lt_range' 1 _).imp ?_
    intro m₁ m₂ hm
    exact ⟨le_refl _, fun _ => Or.inr ⟨rfl, hm⟩⟩
  · rw [List.pairwise_map]
    refine (List.pairwise_lt_range' start_year _).imp ?_
    intro y₁ y₂ hy x hx z hz
    rcases List.mem_map.mp hx with ⟨m₁, _, rfl⟩
    rcases List.mem_map.mp hz with ⟨m₂, _, rfl⟩
    exact ⟨le_refl _, fun _ => Or.inl hy⟩

set_option maxRecDepth 8192 in
/-- The global unit list is ordered: by catalog position across
locations, lexicographically within one. -/
theorem allUnits_pairwise (env : Env) : (allUnits env).Pairwise unitLE := by
  rw [allUnits, List.flatMap_def, List.pairwise_flatten]
  constructor
  · intro l hl
    rcases List.mem_map.mp hl with ⟨loc, _, rfl⟩
    exact unitsOfLoc_pairwise env loc
  · rw [List.pairwise_map]
    have hidx : locationNames.Pairwise
        (fun a b => List.indexOf a locationNames < List.indexOf b locationNames) := by
      decide
    refine hidx.imp ?_
    intro a b hab x hx z hz
    obtain ⟨hx1, _, _⟩ := mem_unitsOfLoc hx
    obtain ⟨hz1, _, _⟩ := mem_unitsOfLoc hz
    refine ⟨?_, fun he => ?_⟩
    · rw [hx1, hz1]
      exact Nat.le_of_lt hab
    · rw [hx1, hz1] at he
      subst he
      exact absurd hab (lt_irrefl _)

/-- Dedup with the identity key is plain `unique()`: membership is
unchanged. -/
theorem mem_dedupKeyed_id {xs : List String} {k : String} :
    k ∈ dedupKeyed id xs ↔ k ∈ xs := by
  have hmm := dedupKeyedAux_key_mem (id : String → String) xs [] k
  simpa using hmm

/-- Resume setup on a non-empty parsed file: the checkpoint is the last
row's (location, year, month) and the processed set contains exactly the
other locations present. -/
theorem startup_spec (rows : List Row) (h : rows ≠ []) :
    (startup rows).1 = some ⟨(rows.getLast h).location, (rows.getLast h).date.year,
      (rows.getLast h).date.month⟩ ∧
    (∀ l, l ∈ (startup rows).2 ↔
      (l ∈ rows.map Row.location ∧ l ≠ (rows.getLast h).location)) := by
  have hlast : rows.getLast? = some (rows.getLast h) := List.getLast?_eq_getLast rows h
  constructor
  · rw [startup, hlast]
  · intro l
    rw [startup, hlast]
    simp only [mem_dedupKeyed_id, List.mem_map, List.mem_filter]
    constructor
    · rintro ⟨r, ⟨hr, hrl⟩, rfl⟩
      exact ⟨⟨r, hr, rfl⟩, by simpa using hrl⟩
    · rintro ⟨⟨r, hr, rfl⟩, hne⟩
      exact ⟨r, ⟨hr, by simpa using hne⟩, rfl⟩

/-! ### C2 -/

/-- C2: checkpoint inference and skip rule.  On a non-empty parseable
output file the checkpoint is the last row's (location, year, month);
the processed set contains exactly the other distinct locations in the
file; within the checkpoint's location the skip test accepts exactly the
months with year < checkpoint year, or equal year and month ≤ checkpoint
month — in particular the checkpointed month itself; and consequently a
resumed loop (over a well-dated collaborator) emits no row for a
processed location and no row of the checkpoint's location at or before
the checkpoint month. -/
theorem C2_checkpoint_inference (rows : List Row) (h : rows ≠ []) :
    ((startup rows).1 = some ⟨(rows.getLast h).location, (rows.getLast h).date.year,
      (rows.getLast h).date.month⟩) ∧
    (∀ l, l ∈ (startup rows).2 ↔
      (l ∈ rows.map Row.location ∧ l ≠ (rows.getLast h).location)) ∧
    (∀ y m : Nat, shouldSkipMonth (startup rows).1 (rows.getLast h).location y m = true ↔
      (y < (rows.getLast h).date.year ∨
        (y = (rows.getLast h).date.year ∧ m ≤ (rows.getLast h).date.month))) ∧
    (shouldSkipMonth (startup rows).1 (rows.getLast h).location
      (rows.getLast h).date.year (rows.getLast h).date.month = true) ∧
    (∀ env : Env, wellDated env →
      ∀ r ∈ runLoop env (startup rows).1 (startup rows).2,
        (r.location ∉ (startup rows).2) ∧
        (r.location = (rows.getLast h).location →
          ((rows.getLast h).date.year < r.date.year ∨
            (r.date.year = (rows.getLast h).date.year ∧
              (rows.getLast h).date.month < r.date.month)))) := by
  obtain ⟨hst1, hst2⟩ := startup_spec rows h
  have hskip : ∀ y m : Nat,
      shouldSkipMonth (startup rows).1 (rows.getLast h).location y m = true ↔
      (y < (rows.getLast h).date.year ∨
        (y = (rows.getLast h).date.year ∧ m ≤ (rows.getLast h).date.month)) := by
    intro y m
    rw [hst1]
    simp [shouldSkipMonth]
  refine ⟨hst1, hst2, hskip, (hskip _ _).mpr (Or.inr ⟨rfl, le_refl _⟩), ?_⟩
  intro env hwd r hr
  rw [runLoop_eq] at hr
  rcases List.mem_flatMap.mp hr with ⟨u, hu, hru⟩
  by_cases hs : u.1 ∈ (startup rows).2 ∨
      shouldSkipMonth (startup rows).1 u.1 u.2.1 u.2.2
  · rw [if_pos hs] at hru
    exact absurd hru (List.not_mem_nil r)
  · rw [if_neg hs] at hru
    push_neg at hs
    obtain ⟨h1, h2, h3⟩ := mem_allUnits hu
    obtain ⟨hl, hy, hm⟩ := processUnit_rows env u.1 u.2.1 u.2.2 hwd h1 h2 h3 r hru
    constructor
    · rw [hl]
      exact hs.1
    · intro hloc
      rw [hl] at hloc
      have hnot := hs.2
      rw [hloc] at hnot
      rw [Ne, hskip u.2.1 u.2.2] at hnot
      push_neg at hnot
      rw [hy, hm]
      rcases Nat.lt_or_ge (rows.getLast h).date.year u.2.1 with hc | hc
      · exact Or.inl hc
      · have hye : u.2.1 = (rows.getLast h).date.year := by
          have := hnot.1
          omega
        exact Or.inr ⟨hye, hnot.2 hye⟩

/-- Witness for C2 at the spec's example: a one-row file dated
2022-05-17 at `RK Puram, Delhi` yields that checkpoint, the checkpointed
month and the preceding month are skipped, and the checkpoint's location
is not in the processed set. -/
theorem C2_checkpoint_inference_witness :
    ((startup rowsRK).1 = some ⟨"RK Puram, Delhi", 2022, 5⟩) ∧
    (shouldSkipMonth (startup rowsRK).1 "RK Puram, Delhi" 2022 5 = true) ∧
    (shouldSkipMonth (startup rowsRK).1 "RK Puram, Delhi" 2022 4 = true) ∧
    ("RK Puram, Delhi" ∉ (startup rowsRK).2) := by
  obtain ⟨h1, h2, h3, h4, _⟩ :=
    C2_checkpoint_inference rowsRK (by decide)
  refine ⟨h1, h4, (h3 2022 4).mpr (by decide), fun hc => ?_⟩
  exact ((h2 "RK Puram, Delhi").mp hc).2 rfl

/-- A non-empty concatenation of per-unit blocks decomposes at its last
non-empty block: everything after it is empty and it holds the last
element. -/
theorem flatMap_getLast_split {α β : Type} (f : α → List β) :
    ∀ l : List α, l.flatMap f ≠ [] →
      ∃ l₁ x l₂, l = l₁ ++ x :: l₂ ∧ f x ≠ [] ∧ l₂.flatMap f = [] ∧
        (l.flatMap f).getLast? = (f x).getLast? := by
  intro l
  induction l using List.reverseRecOn with
  | nil =>
    intro h
    simp at h
  | append_singleton init last ih =>
    intro h
    by_cases hlast : f last = []
    · have hinit : init.flatMap f ≠ [] := by
        intro hc
        apply h
        rw [List.flatMap_append]
        simp [hc, hlast]
      obtain ⟨l₁, x, l₂, hdec, hfx, hl₂, hlastq⟩ := ih hinit
      refine ⟨l₁, x, l₂ ++ [last], by rw [hdec]; simp, hfx, ?_, ?_⟩
      · rw [List.flatMap_append]
        simp [hl₂, hlast]
      · rw [List.flatMap_append]
        have h2 : [last].flatMap f = [] := by simp [hlast]
        rw [h2, List.append_nil]
        exact hlastq
    · refine ⟨init, last, [], rfl, hlast, rfl, ?_⟩
      rw [List.flatMap_append]
      have h2 : [last].flatMap f = f last := by simp
      rw [h2, List.getLast?_append]
      obtain ⟨b, hb⟩ := Option.isSome_iff_exists.mp
        (List.getLast?_isSome.mpr hlast)
      rw [hb]
      rfl

/-! ### C1 -/

/-- C1 counterexample: with a deterministic collaborator yielding two
January-2020 rows for the first location, the completed run has two rows;
truncating the output back to the first row (mid-unit) and re-running
infers checkpoint (Anand Vihar, 2020, 1), skips that whole month, and
never reproduces the second row — refuting byte-identical reproduction
for an arbitrary truncation row. -/
theorem C1_idempotent_resume_counterexample :
    fullRun envA ((fullRun envA []).take 1) ≠ fullRun envA [] := by
  decide

/-- C1 (amended): resume is idempotent at unit boundaries.  For a
deterministic, well-dated collaborator, truncating the completed output
at any (location, month) unit boundary — keeping the concatenation of
the first units' rows — and re-running reproduces exactly the complete
run's rows (no duplicated and no missing unit). -/
theorem C1_idempotent_resume_amended (env : Env) (hwd : wellDated env)
    (A B : List (String × Nat × Nat)) (hsplit : allUnits env = A ++ B) :
    fullRun env (A.flatMap (procU env)) = fullRun env [] := by
  have hfull0 : fullRun env [] = (allUnits env).flatMap (procU env) := by
    rw [fullRun]
    rw [show (startup []).1 = none from rfl, show (startup []).2 = ([] : List String) from rfl]
    rw [runLoop_eq]
    simp [shouldSkipMonth]
  by_cases hAe : A.flatMap (procU env) = []
  · rw [hAe]
  · obtain ⟨A₁, u₀, A₂, hAdec, hfu₀, hA₂, hlastq⟩ := flatMap_getLast_split (procU env) A hAe
    have hu₀A : u₀ ∈ A := by
      rw [hAdec]
      exact List.mem_append_right _ (List.mem_cons_self _ _)
    have hu₀all : u₀ ∈ allUnits env := by
      rw [hsplit]
      exact List.mem_append_left _ hu₀A
    obtain ⟨hu₀loc, hu₀y, hu₀m⟩ := mem_allUnits hu₀all
    have hmemall : ∀ u ∈ A, u ∈ allUnits env := by
      intro u huA
      rw [hsplit]
      exact List.mem_append_left _ huA
    have hmemallB : ∀ u ∈ B, u ∈ allUnits env := by
      intro u huB
      rw [hsplit]
      exact List.mem_append_right _ huB
    have hrowsU : ∀ u ∈ allUnits env, ∀ r ∈ procU env u,
        r.location = u.1 ∧ r.date.year = u.2.1 ∧ r.date.month = u.2.2 := by
      intro u huall r hru
      obtain ⟨h1, h2, h3⟩ := mem_allUnits huall
      exact processUnit_rows env u.1 u.2.1 u.2.2 hwd h1 h2 h3 r hru
    have hgl : (A.flatMap (procU env)).getLast? = some ((procU env u₀).getLast hfu₀) := by
      rw [hlastq]
      exact List.getLast?_eq_getLast _ hfu₀
    have hlastmem : (procU env u₀).getLast hfu₀ ∈ procU env u₀ := List.getLast_mem hfu₀
    obtain ⟨hLloc, hLy, hLm⟩ := hrowsU u₀ hu₀all _ hlastmem
    have hre : (A.flatMap (procU env)).getLast hAe = (procU env u₀).getLast hfu₀ := by
      have hq := List.getLast?_eq_getLast (A.flatMap (procU env)) hAe
      rw [hgl] at hq
      exact (Option.some.inj hq).symm
    obtain ⟨hst1, hst2⟩ := startup_spec (A.flatMap (procU env)) hAe
    rw [hre, hLloc, hLy, hLm] at hst1
    have hst2x : ∀ l, l ∈ (startup (A.flatMap (procU env))).2 ↔
        (l ∈ (A.flatMap (procU env)).map Row.location ∧ l ≠ u₀.1) := by
      intro l
      rw [hst2 l, hre, hLloc]
    have hlocs : ∀ l, l ∈ (A.flatMap (procU env)).map Row.location ↔
        ∃ u ∈ A, procU env u ≠ [] ∧ u.1 = l := by
      intro l
      constructor
      · intro hl
        rcases List.mem_map.mp hl with ⟨r, hr, rfl⟩
        rcases List.mem_flatMap.mp hr with ⟨u, huA, hru⟩
        obtain ⟨h1, _, _⟩ := hrowsU u (hmemall u huA) r hru
        exact ⟨u, huA, List.ne_nil_of_mem hru, h1.symm⟩
      · rintro ⟨u, huA, hune, rfl⟩
        obtain ⟨r, hr⟩ := List.exists_mem_of_ne_nil _ hune
        obtain ⟨h1, _, _⟩ := hrowsU u (hmemall u huA) r hr
        exact List.mem_map.mpr ⟨r, List.mem_flatMap.mpr ⟨u, huA, hr⟩, h1⟩
    have hall : allUnits env = A₁ ++ u₀ :: (A₂ ++ B) := by
      rw [hsplit, hAdec]
      simp
    have hpw := allUnits_pairwise env
    rw [hall, List.pairwise_append] at hpw
    have hpwc := hpw.2.1
    rw [List.pairwise_cons] at hpwc
    have hA₁u₀ : ∀ a ∈ A₁, unitLE a u₀ := fun a ha =>
      hpw.2.2 a ha u₀ (List.mem_cons_self _ _)
    have hu₀B : ∀ b ∈ B, unitLE u₀ b := fun b hb =>
      hpwc.1 b (List.mem_append_right _ hb)
    have hA₂e : ∀ u ∈ A₂, procU env u = [] := List.flatMap_eq_nil_iff.mp hA₂
    have hApart : A.flatMap (fun u =>
        if u.1 ∈ (startup (A.flatMap (procU env))).2 ∨
          shouldSkipMonth (startup (A.flatMap (procU env))).1 u.1 u.2.1 u.2.2 then []
        else procU env u) = [] := by
      rw [List.flatMap_eq_nil_iff]
      intro u huA
      by_cases hs : u.1 ∈ (startup (A.flatMap (procU env))).2 ∨
          shouldSkipMonth (startup (A.flatMap (procU env))).1 u.1 u.2.1 u.2.2
      · rw [if_pos hs]
      · rw [if_neg hs]
        by_contra hu0
        apply hs
        by_cases hloceq : u.1 = u₀.1
        · right
          rw [hst1]
          rw [hAdec] at huA
          rcases List.mem_append.mp huA with h1 | h1
          · have hle := hA₁u₀ u h1
            have hlex := hle.2 hloceq
            rcases hlex with hlt | ⟨heq, hmlt⟩
            · simp [shouldSkipMonth, hloceq, hlt]
            · simp [shouldSkipMonth, hloceq, heq, Nat.le_of_lt hmlt]
          · rcases List.mem_cons.mp h1 with rfl | h1
            · simp [shouldSkipMonth]
            · exact absurd (hA₂e u h1) hu0
        · left
          rw [hst2x u.1]
          exact ⟨(hlocs u.1).mpr ⟨u, huA, hu0, rfl⟩, hloceq⟩
    have hBpart : B.flatMap (fun u =>
        if u.1 ∈ (startup (A.flatMap (procU env))).2 ∨
          shouldSkipMonth (startup (A.flatMap (procU env))).1 u.1 u.2.1 u.2.2 then []
        else procU env u) = B.flatMap (procU env) := by
      refine flatMap_congr_mem ?_
      intro u huB
      by_cases hs : u.1 ∈ (startup (A.flatMap (procU env))).2 ∨
          shouldSkipMonth (startup (A.flatMap (procU env))).1 u.1 u.2.1 u.2.2
      · rw [if_pos hs]
        by_cases hu0 : procU env u = []
        · rw [hu0]
        · exfalso
          rcases hs with hs | hs
          · obtain ⟨hmm1, hneq⟩ := (hst2x u.1).mp hs
            obtain ⟨u2, hu2A, hu2ne, hu2loc⟩ := (hlocs u.1).mp hmm1
            rw [hAdec] at hu2A
            rcases List.mem_append.mp hu2A with h1 | h1
            · have hle1 := hA₁u₀ u2 h1
              have hle2 := hu₀B u huB
              have hu1loc := (mem_allUnits (hmemallB u huB)).1
              have hidxeq : List.indexOf u₀.1 locationNames =
                  List.indexOf u.1 locationNames := by
                have hi1 : List.indexOf u.1 locationNames ≤
                    List.indexOf u₀.1 locationNames := by
                  rw [← hu2loc]
                  exact hle1.1
                have hi2 := hle2.1
                omega
              have heq2 := (List.indexOf_inj hu₀loc hu1loc).mp hidxeq
              exact hneq heq2.symm
            · rcases List.mem_cons.mp h1 with rfl | h1
              · exact hneq hu2loc.symm
              · exact absurd (hA₂e u2 h1) hu2ne
          · rw [hst1] at hs
            simp only [shouldSkipMonth, Bool.and_eq_true, Bool.or_eq_true, beq_iff_eq,
              decide_eq_true_eq] at hs
            have hle2 := hu₀B u huB
            have hlex := hle2.2 hs.1.symm
            rcases hs.2 with h1 | ⟨h1, h2⟩ <;> rcases hlex with h3 | ⟨h3, h4⟩ <;> omega
      · rw [if_neg hs]
    rw [hfull0, fullRun, hsplit, List.flatMap_append]
    refine congrArg (fun x => A.flatMap (procU env) ++ x) ?_
    rw [runLoop_eq, hsplit, List.flatMap_append, hApart, hBpart, List.nil_append]

/-- Witness for the amended C1: truncating the completed `envA` run at
the boundary after the first unit and re-running reproduces the complete
run (the well-dated hypothesis and the boundary decomposition are
discharged concretely). -/
theorem C1_idempotent_resume_amended_witness :
    fullRun envA (((allUnits envA).take 1).flatMap (procU envA)) = fullRun envA [] :=
  C1_idempotent_resume_amended envA (by unfold wellDated; decide)
    ((allUnits envA).take 1) ((allUnits envA).drop 1)
    (List.take_append_drop 1 (allUnits envA)).symm
